import Mathlib

/-!
Verification of the in-memory URL shortener (src/url-shortener/src/App.tsx and
loggingMiddleware.ts), shallowly embedded in Lean.

Modelling conventions:
- Timestamps (`Date.now()`) are natural numbers (milliseconds).
- The random source of `Math.floor(Math.random() * 62)` is an explicit oracle
  stream `Nat → Fin 62` of successive character draws; the unbounded
  resample-until-fresh loop is given fuel and returns `Option String`
  (`none` = the loop did not finish within the fuel).
- The browser URL constructor is an abstract parameter
  `parseURL : String → Option String` returning the serialization
  (`url.toString()`) on success, `none` when `new URL` throws.
- React `useState` state is a record `AppState` threaded through the handlers.
-/

namespace UrlShortener

/-- Record stored per shortened URL (interface ShortUrl in App.tsx). -/
structure ShortUrl where
  shortCode : String
  originalUrl : String
  createdAt : Nat
  expiresAt : Nat
  clickCount : Nat
deriving DecidableEq

/-- Log entry (interface LogEntry in loggingMiddleware.ts). The ISO timestamp
string is modelled by the numeric time at which the entry was appended; the
optional context map is a list of key-value pairs, values rendered as strings. -/
structure LogEntry where
  timestamp : Nat
  message : String
  context : List (String × String)
deriving DecidableEq

/-- The 62-character alphabet of generateShortCode (the chars constant). -/
def alphabet : String :=
  "abcdefghijklmnopqrstuvwxyzABCDEFGHIJKLMNOPQRSTUVWXYZ0123456789"

def alphaChars : List Char := alphabet.toList

theorem alphaChars_length : alphaChars.length = 62 := rfl

/-- chars.charAt of a random draw below 62. -/
def charOf (i : Fin 62) : Char :=
  alphaChars.get (Fin.cast alphaChars_length.symm i)

/-- The 6-character candidate built on the k-th iteration of the do-while loop
of generateShortCode: draws 6k .. 6k+5 of the random stream. -/
def codeAt (stream : Nat → Fin 62) (k : Nat) : String :=
  ⟨(List.range 6).map fun i => charOf (stream (6 * k + i))⟩

/-- The do-while resampling loop of generateShortCode, trying candidates
k, k+1, ... while they collide with the existing set, with explicit fuel. -/
def genFrom (existing : List String) (stream : Nat → Fin 62) : Nat → Nat → Option String
  | _, 0 => none
  | k, fuel + 1 =>
    if codeAt stream k ∈ existing then genFrom existing stream (k + 1) fuel
    else some (codeAt stream k)

/-- generateShortCode (App.tsx lines 14-24): resample a whole 6-character code
until it does not collide with the existing set. -/
def generateShortCode (existing : List String) (stream : Nat → Fin 62) (fuel : Nat) :
    Option String :=
  genFrom existing stream 0 fuel

theorem codeAt_length (stream : Nat → Fin 62) (k : Nat) : (codeAt stream k).length = 6 :=
  rfl

theorem codeAt_mem_alpha (stream : Nat → Fin 62) (k : Nat) :
    ∀ ch ∈ (codeAt stream k).data, ch ∈ alphaChars := by
  intro ch hch
  simp only [codeAt, List.mem_map, List.mem_range] at hch
  obtain ⟨i, -, rfl⟩ := hch
  exact List.get_mem _ _ _

theorem genFrom_spec (existing : List String) (stream : Nat → Fin 62) :
    ∀ fuel k c, genFrom existing stream k fuel = some c →
      c.length = 6 ∧ (∀ ch ∈ c.data, ch ∈ alphaChars) ∧ c ∉ existing := by
  intro fuel
  induction fuel with
  | zero => intro k c h; simp [genFrom] at h
  | succ n ih =>
    intro k c h
    simp only [genFrom] at h
    by_cases hmem : codeAt stream k ∈ existing
    · rw [if_pos hmem] at h
      exact ih (k + 1) c h
    · rw [if_neg hmem] at h
      cases h
      exact ⟨codeAt_length _ _, codeAt_mem_alpha _ _, hmem⟩

/-- Claim C1: every string returned by the short-code generator has length
exactly 6, every one of its characters is drawn from the 62-character
alphanumeric alphabet [a-zA-Z0-9], and the returned string is not a member of
the existing-code set supplied as input. -/
theorem generateShortCode_valid (existing : List String) (stream : Nat → Fin 62)
    (fuel : Nat) (c : String) (h : generateShortCode existing stream fuel = some c) :
    c.length = 6 ∧ (∀ ch ∈ c.data, ch ∈ alphaChars) ∧ c ∉ existing :=
  genFrom_spec existing stream fuel 0 c h

theorem generateShortCode_valid_witness :
    ("aaaaaa".length = 6 ∧ (∀ ch ∈ "aaaaaa".data, ch ∈ alphaChars) ∧
      "aaaaaa" ∉ (["bbbbbb"] : List String)) :=
  generateShortCode_valid ["bbbbbb"] (fun _ => 0) 1 "aaaaaa" (by decide)

/-- The longest run of decimal digits at the front of the character list,
as consumed by parseInt after sign handling. -/
def leadingDigits : List Char → List Char
  | [] => []
  | c :: cs => if c.isDigit then c :: leadingDigits cs else []

/-- Numeric value of a list of decimal digits. -/
def digitsToNat (l : List Char) : Nat :=
  l.foldl (fun acc c => acc * 10 + (c.toNat - 48)) 0

/-- JavaScript parseInt(s, 10): skip leading whitespace, read an optional sign,
then the longest digit run; NaN (here: none) when no digit follows. Trailing
non-digit characters are ignored. -/
def parseIntJS (s : String) : Option Int :=
  match s.data.dropWhile Char.isWhitespace with
  | [] => none
  | c :: cs =>
    let sign : Int := if c = '-' then -1 else 1
    let body := if c = '-' ∨ c = '+' then cs else c :: cs
    match leadingDigits body with
    | [] => none
    | ds => some (sign * (digitsToNat ds : Int))

/-- JavaScript String.prototype.trim: strip leading and trailing whitespace. -/
def jsTrim (s : String) : String :=
  ⟨((s.data.dropWhile Char.isWhitespace).reverse.dropWhile Char.isWhitespace).reverse⟩

/-- validity ? parseInt(validity, 10) : 30 — the empty string is the only
falsy value of the validity text field. -/
def effectiveValidity (validity : String) : Option Int :=
  if validity = "" then some 30 else parseIntJS validity

/-- The useState state of the App component that the claims concern:
the two form fields, the record collection, plus the module-level log list and
the redirect result message. -/
structure AppState where
  longUrl : String
  validity : String
  shortUrls : List ShortUrl
  logs : List LogEntry
  redirectResult : Option String
deriving DecidableEq

/-- handleShorten (App.tsx lines 35-68). The abstract parseURL parameter
returns url.toString() when new URL(longUrl) succeeds and none when it throws.
Returns none only when the generator fuel runs out (the do-while loop of
generateShortCode did not finish). -/
def handleShorten (parseURL : String → Option String) (now : Nat)
    (stream : Nat → Fin 62) (fuel : Nat) (s : AppState) : Option AppState :=
  if jsTrim s.longUrl = "" then
    some { s with logs := s.logs ++ [⟨now, "Attempted to shorten empty URL", [("longUrl", s.longUrl)]⟩] }
  else
    match parseURL s.longUrl with
    | none =>
      some { s with logs := s.logs ++ [⟨now, "Invalid URL entered", [("longUrl", s.longUrl)]⟩] }
    | some urlStr =>
      match effectiveValidity s.validity with
      | none =>
        some { s with logs := s.logs ++ [⟨now, "Invalid validity entered", [("validity", s.validity)]⟩] }
      | some v =>
        if v ≤ 0 then
          some { s with logs := s.logs ++ [⟨now, "Invalid validity entered", [("validity", s.validity)]⟩] }
        else
          match generateShortCode (s.shortUrls.map ShortUrl.shortCode) stream fuel with
          | none => none
          | some code =>
            some { longUrl := ""
                   validity := ""
                   shortUrls := ⟨code, urlStr, now, now + v.toNat * 60000, 0⟩ :: s.shortUrls
                   logs := s.logs ++ [⟨now, "Shortened new URL",
                     [("shortCode", code), ("originalUrl", urlStr), ("validityMinutes", toString v)]⟩]
                   redirectResult := s.redirectResult }

/-- found.clickCount++ : in-place increment of the first record whose code
matches (the record Array.find returned). -/
def incFirstClick (code : String) : List ShortUrl → List ShortUrl
  | [] => []
  | u :: rest =>
    if u.shortCode = code then { u with clickCount := u.clickCount + 1 } :: rest
    else u :: incFirstClick code rest

/-- handleRedirect (App.tsx lines 77-94), with the code text field passed as
the code argument and Date.now() as now. -/
def handleRedirect (now : Nat) (code : String) (s : AppState) : AppState :=
  match s.shortUrls.find? (fun u => u.shortCode == code) with
  | none =>
    { s with redirectResult := some "Short URL not found."
             logs := s.logs ++ [⟨now, "Redirection failed: code not found", [("shortCode", code)]⟩] }
  | some found =>
    if found.expiresAt < now then
      { s with redirectResult := some "This short URL has expired."
               logs := s.logs ++ [⟨now, "Redirection failed: code expired", [("shortCode", code)]⟩] }
    else
      { s with shortUrls := incFirstClick code s.shortUrls
               redirectResult := some ("Redirected to: " ++ found.originalUrl)
               logs := s.logs ++ [⟨now, "Short URL visited",
                 [("shortCode", code), ("originalUrl", found.originalUrl)]⟩] }

/-- handleCopy (App.tsx lines 70-75): writes to the clipboard and logs; the
only App state the claims concern is the appended log entry (the transient
copied highlight and its timeout are rendering state). -/
def handleCopy (now : Nat) (code : String) (s : AppState) : AppState :=
  { s with logs := s.logs ++ [⟨now, "Copied short URL", [("shortCode", code)]⟩] }

/-- getLogs (loggingMiddleware.ts): [...logs], an element-wise copy of the
internal list. -/
def getLogs (logs : List LogEntry) : List LogEntry :=
  List.foldr List.cons [] logs

/-- Modelled from the spec: the browser URL constructor used by handleShorten
(new URL(longUrl) and its toString()) is a platform builtin absent from the
repository sources. The spec requires parsing to succeed exactly on well-formed
absolute URLs, and the WHATWG serialization of an http(s) URL with an empty
path ends in a "/" path. This minimal model accepts http(s) inputs with a
nonempty remainder after the scheme and appends the "/" when no path is
present; it is used only to instantiate theorems at concrete inputs. -/
def urlTail (input : String) (rest : List Char) : Option String :=
  if rest = [] then none
  else if '/' ∈ rest then some input
  else some ⟨input.data ++ ['/']⟩

/-- Modelled from the spec (see urlTail above for the part after the scheme). -/
def urlParseModel (input : String) : Option String :=
  if List.isPrefixOf "https://".data input.data then
    urlTail input (input.data.drop 8)
  else if List.isPrefixOf "http://".data input.data then
    urlTail input (input.data.drop 7)
  else none

/-- Claim C2: on a successful shorten at time now with effective validity v
minutes (v = 30 when the validity text is blank), a new record with the
freshly generated shortCode, clickCount = 0, createdAt = now and
expiresAt = now + v*60000 milliseconds is prepended to the front of the record
collection, and both input fields are cleared. -/
theorem handleShorten_success (parseURL : String → Option String) (now : Nat)
    (stream : Nat → Fin 62) (fuel : Nat) (s : AppState) (urlStr : String) (v : Int)
    (code : String)
    (h1 : ¬ jsTrim s.longUrl = "")
    (h2 : parseURL s.longUrl = some urlStr)
    (h3 : effectiveValidity s.validity = some v)
    (h4 : 0 < v)
    (h5 : generateShortCode (s.shortUrls.map ShortUrl.shortCode) stream fuel = some code) :
    handleShorten parseURL now stream fuel s =
      some { longUrl := ""
             validity := ""
             shortUrls := ⟨code, urlStr, now, now + v.toNat * 60000, 0⟩ :: s.shortUrls
             logs := s.logs ++ [⟨now, "Shortened new URL",
               [("shortCode", code), ("originalUrl", urlStr), ("validityMinutes", toString v)]⟩]
             redirectResult := s.redirectResult } ∧
    (s.validity = "" → v = 30) := by
  constructor
  · simp only [handleShorten, if_neg h1, h2, h3, h5, if_neg (not_le.mpr h4)]
  · intro hb
    rw [effectiveValidity, if_pos hb] at h3
    cases h3
    rfl

theorem handleShorten_success_witness :
    (handleShorten urlParseModel 777 (fun _ => 0) 1
        ⟨"https://example.com", "1", [], [], none⟩ =
      some { longUrl := ""
             validity := ""
             shortUrls := [⟨"aaaaaa", "https://example.com/", 777, 777 + (1 : Int).toNat * 60000, 0⟩]
             logs := [⟨777, "Shortened new URL",
               [("shortCode", "aaaaaa"), ("originalUrl", "https://example.com/"),
                ("validityMinutes", toString (1 : Int))]⟩]
             redirectResult := none } ∧ ("1" = "" → (1 : Int) = 30)) :=
  handleShorten_success urlParseModel 777 (fun _ => 0) 1
    ⟨"https://example.com", "1", [], [], none⟩ "https://example.com/" 1 "aaaaaa"
    (by decide) (by decide) (by decide) (by decide) (by decide)

/-- Claim C3: every rejected shorten attempt — URL text empty or
whitespace-only, URL text that does not parse, or validity text that fails to
parse as an integer or parses to a value ≤ 0, the checks applied in that
order — leaves the record collection (and every other field but the log)
unchanged and appends exactly one log entry carrying the offending input. -/
theorem handleShorten_rejects (parseURL : String → Option String) (now : Nat)
    (stream : Nat → Fin 62) (fuel : Nat) (s : AppState) :
    (jsTrim s.longUrl = "" →
      handleShorten parseURL now stream fuel s =
        some { s with logs := s.logs ++
          [⟨now, "Attempted to shorten empty URL", [("longUrl", s.longUrl)]⟩] }) ∧
    (¬ jsTrim s.longUrl = "" → parseURL s.longUrl = none →
      handleShorten parseURL now stream fuel s =
        some { s with logs := s.logs ++
          [⟨now, "Invalid URL entered", [("longUrl", s.longUrl)]⟩] }) ∧
    (∀ urlStr, ¬ jsTrim s.longUrl = "" → parseURL s.longUrl = some urlStr →
      (effectiveValidity s.validity = none ∨
        ∃ v, effectiveValidity s.validity = some v ∧ v ≤ 0) →
      handleShorten parseURL now stream fuel s =
        some { s with logs := s.logs ++
          [⟨now, "Invalid validity entered", [("validity", s.validity)]⟩] }) := by
  refine ⟨fun h1 => ?_, fun h1 h2 => ?_, fun urlStr h1 h2 h3 => ?_⟩
  · simp only [handleShorten, if_pos h1]
  · simp only [handleShorten, if_neg h1, h2]
  · rcases h3 with h3 | ⟨v, h3, hv⟩
    · simp only [handleShorten, if_neg h1, h2, h3]
    · simp only [handleShorten, if_neg h1, h2, h3, if_pos hv]

theorem handleShorten_rejects_witness :
    (handleShorten urlParseModel 1 (fun _ => 0) 9 ⟨"   ", "5", [], [], none⟩ =
      some ⟨"   ", "5", [],
        [⟨1, "Attempted to shorten empty URL", [("longUrl", "   ")]⟩], none⟩) ∧
    (handleShorten urlParseModel 2 (fun _ => 0) 9 ⟨"not a url", "5", [], [], none⟩ =
      some ⟨"not a url", "5", [],
        [⟨2, "Invalid URL entered", [("longUrl", "not a url")]⟩], none⟩) ∧
    (handleShorten urlParseModel 3 (fun _ => 0) 9 ⟨"https://example.com", "0", [], [], none⟩ =
      some ⟨"https://example.com", "0", [],
        [⟨3, "Invalid validity entered", [("validity", "0")]⟩], none⟩) ∧
    (handleShorten urlParseModel 4 (fun _ => 0) 9 ⟨"https://example.com", "-5", [], [], none⟩ =
      some ⟨"https://example.com", "-5", [],
        [⟨4, "Invalid validity entered", [("validity", "-5")]⟩], none⟩) ∧
    (handleShorten urlParseModel 5 (fun _ => 0) 9 ⟨"https://example.com", "abc", [], [], none⟩ =
      some ⟨"https://example.com", "abc", [],
        [⟨5, "Invalid validity entered", [("validity", "abc")]⟩], none⟩) :=
  ⟨(handleShorten_rejects urlParseModel 1 (fun _ => 0) 9 _).1 (by decide),
   (handleShorten_rejects urlParseModel 2 (fun _ => 0) 9 _).2.1 (by decide) (by decide),
   (handleShorten_rejects urlParseModel 3 (fun _ => 0) 9 _).2.2 "https://example.com/"
     (by decide) (by decide) (Or.inr ⟨0, by decide, by decide⟩),
   (handleShorten_rejects urlParseModel 4 (fun _ => 0) 9 _).2.2 "https://example.com/"
     (by decide) (by decide) (Or.inr ⟨-5, by decide, by decide⟩),
   (handleShorten_rejects urlParseModel 5 (fun _ => 0) 9 _).2.2 "https://example.com/"
     (by decide) (by decide) (Or.inl (by decide))⟩

theorem find?_split (code : String) :
    ∀ (l : List ShortUrl) (u : ShortUrl),
      l.find? (fun x => x.shortCode == code) = some u →
      ∃ l1 l2, l = l1 ++ u :: l2 ∧ (∀ w ∈ l1, w.shortCode ≠ code) ∧
        u.shortCode = code ∧
        incFirstClick code l = l1 ++ { u with clickCount := u.clickCount + 1 } :: l2 := by
  intro l
  induction l with
  | nil => intro u h; simp [List.find?] at h
  | cons v rest ih =>
    intro u h
    by_cases hv : v.shortCode = code
    · rw [List.find?_cons_of_pos _ (by simpa using hv)] at h
      cases h
      exact ⟨[], rest, rfl, by simp, hv, by simp [incFirstClick, if_pos hv]⟩
    · rw [List.find?_cons_of_neg _ (by simpa using hv)] at h
      obtain ⟨l1, l2, hsplit, hl1, hu, hinc⟩ := ih u h
      refine ⟨v :: l1, l2, by rw [hsplit]; rfl, ?_, hu, ?_⟩
      · intro w hw
        rcases List.mem_cons.mp hw with rfl | hw
        · exact hv
        · exact hl1 w hw
      · rw [hsplit] at hinc
        simp [incFirstClick, if_neg hv, hinc, hsplit]

/-- Claim C4: a redirect on a code with no exact match among stored records
sets the result message "Short URL not found." and alters no record; a
redirect on a matching record whose expiresAt is strictly less than the
current time sets "This short URL has expired." and mutates no record (its
clickCount included); both outcomes append exactly one failure log entry. -/
theorem handleRedirect_failures (now : Nat) (code : String) (s : AppState) :
    (s.shortUrls.find? (fun u => u.shortCode == code) = none →
      handleRedirect now code s =
        { s with redirectResult := some "Short URL not found."
                 logs := s.logs ++
                   [⟨now, "Redirection failed: code not found", [("shortCode", code)]⟩] }) ∧
    (∀ u, s.shortUrls.find? (fun x => x.shortCode == code) = some u →
      u.expiresAt < now →
      handleRedirect now code s =
        { s with redirectResult := some "This short URL has expired."
                 logs := s.logs ++
                   [⟨now, "Redirection failed: code expired", [("shortCode", code)]⟩] }) := by
  constructor
  · intro h
    simp only [handleRedirect, h]
  · intro u h hexp
    simp only [handleRedirect, h, if_pos hexp]

theorem handleRedirect_failures_witness :
    (handleRedirect 5 "zzzzzz" ⟨"", "", [⟨"aaaaaa", "u", 0, 10, 0⟩], [], none⟩ =
      ⟨"", "", [⟨"aaaaaa", "u", 0, 10, 0⟩],
        [⟨5, "Redirection failed: code not found", [("shortCode", "zzzzzz")]⟩],
        some "Short URL not found."⟩) ∧
    (handleRedirect 99 "aaaaaa" ⟨"", "", [⟨"aaaaaa", "u", 0, 10, 3⟩], [], none⟩ =
      ⟨"", "", [⟨"aaaaaa", "u", 0, 10, 3⟩],
        [⟨99, "Redirection failed: code expired", [("shortCode", "aaaaaa")]⟩],
        some "This short URL has expired."⟩) :=
  ⟨(handleRedirect_failures 5 "zzzzzz" ⟨"", "", [⟨"aaaaaa", "u", 0, 10, 0⟩], [], none⟩).1
      (by decide),
   (handleRedirect_failures 99 "aaaaaa" ⟨"", "", [⟨"aaaaaa", "u", 0, 10, 3⟩], [], none⟩).2
      ⟨"aaaaaa", "u", 0, 10, 3⟩ (by decide) (by decide)⟩

/-- Claim C5: a redirect on a code that exactly matches a stored record whose
expiresAt has not passed (now ≤ expiresAt) increments that record's clickCount
by exactly 1, leaves every other record unchanged, sets a result message
containing the record's original URL, and appends a success log entry. -/
theorem handleRedirect_success (now : Nat) (code : String) (s : AppState) (u : ShortUrl)
    (hf : s.shortUrls.find? (fun x => x.shortCode == code) = some u)
    (hexp : ¬ u.expiresAt < now) :
    ∃ l1 l2, s.shortUrls = l1 ++ u :: l2 ∧ (∀ w ∈ l1, w.shortCode ≠ code) ∧
      handleRedirect now code s =
        { s with shortUrls := l1 ++ { u with clickCount := u.clickCount + 1 } :: l2
                 redirectResult := some ("Redirected to: " ++ u.originalUrl)
                 logs := s.logs ++ [⟨now, "Short URL visited",
                   [("shortCode", code), ("originalUrl", u.originalUrl)]⟩] } := by
  obtain ⟨l1, l2, hsplit, hl1, hu, hinc⟩ := find?_split code s.shortUrls u hf
  refine ⟨l1, l2, hsplit, hl1, ?_⟩
  simp only [handleRedirect, hf, if_neg hexp, hinc]

theorem handleRedirect_success_witness :
    ∃ l1 l2,
      ([⟨"aaaaaa", "u", 0, 10, 0⟩] : List ShortUrl) = l1 ++ ⟨"aaaaaa", "u", 0, 10, 0⟩ :: l2 ∧
      (∀ w ∈ l1, w.shortCode ≠ "aaaaaa") ∧
      handleRedirect 5 "aaaaaa" ⟨"", "", [⟨"aaaaaa", "u", 0, 10, 0⟩], [], none⟩ =
        ⟨"", "", l1 ++ ⟨"aaaaaa", "u", 0, 10, 1⟩ :: l2,
         [⟨5, "Short URL visited", [("shortCode", "aaaaaa"), ("originalUrl", "u")]⟩],
         some "Redirected to: u"⟩ :=
  handleRedirect_success 5 "aaaaaa" ⟨"", "", [⟨"aaaaaa", "u", 0, 10, 0⟩], [], none⟩
    ⟨"aaaaaa", "u", 0, 10, 0⟩ (by decide) (by decide)

/-- The user-triggered events of the page: typing into the two form fields,
submitting the shorten form, submitting the redirect form, and the copy
action. A shorten step exists only when the generator loop finished within
its fuel. -/
inductive Op where
  | setLong : String → Op
  | setValidity : String → Op
  | shorten : (String → Option String) → Nat → (Nat → Fin 62) → Nat → Op
  | redirect : Nat → String → Op
  | copy : Nat → String → Op

def step : Op → AppState → Option AppState
  | Op.setLong t, s => some { s with longUrl := t }
  | Op.setValidity t, s => some { s with validity := t }
  | Op.shorten parseURL now stream fuel, s => handleShorten parseURL now stream fuel s
  | Op.redirect now code, s => some (handleRedirect now code s)
  | Op.copy now code, s => some (handleCopy now code s)

/-- Initial state of the App component: empty fields, no records, no logs. -/
def initState : AppState :=
  { longUrl := "", validity := "", shortUrls := [], logs := [], redirectResult := none }

/-- States reachable from the initial state by any sequence of events. -/
inductive Reachable : AppState → Prop where
  | init : Reachable initState
  | next {s s2 : AppState} (op : Op) : Reachable s → step op s = some s2 → Reachable s2

theorem handleShorten_shape (parseURL : String → Option String) (now : Nat)
    (stream : Nat → Fin 62) (fuel : Nat) (s s2 : AppState)
    (h : handleShorten parseURL now stream fuel s = some s2) :
    (∃ e, s2.logs = s.logs ++ [e]) ∧
    (s2.shortUrls = s.shortUrls ∨
      ∃ r : ShortUrl, s2.shortUrls = r :: s.shortUrls ∧
        r.shortCode ∉ s.shortUrls.map ShortUrl.shortCode ∧
        parseURL s.longUrl = some r.originalUrl) := by
  simp only [handleShorten] at h
  by_cases h1 : jsTrim s.longUrl = ""
  · rw [if_pos h1] at h
    cases h
    exact ⟨⟨_, rfl⟩, Or.inl rfl⟩
  · rw [if_neg h1] at h
    cases hp : parseURL s.longUrl with
    | none =>
      simp only [hp] at h
      cases h
      exact ⟨⟨_, rfl⟩, Or.inl rfl⟩
    | some urlStr =>
      simp only [hp] at h
      cases hv : effectiveValidity s.validity with
      | none =>
        simp only [hv] at h
        cases h
        exact ⟨⟨_, rfl⟩, Or.inl rfl⟩
      | some v =>
        simp only [hv] at h
        by_cases hle : v ≤ 0
        · rw [if_pos hle] at h
          cases h
          exact ⟨⟨_, rfl⟩, Or.inl rfl⟩
        · rw [if_neg hle] at h
          cases hg : generateShortCode (s.shortUrls.map ShortUrl.shortCode) stream fuel with
          | none =>
            simp only [hg] at h
            exact Option.noConfusion h
          | some code =>
            simp only [hg] at h
            cases h
            exact ⟨⟨_, rfl⟩,
              Or.inr ⟨⟨code, urlStr, now, now + v.toNat * 60000, 0⟩, rfl,
                (genFrom_spec _ stream fuel 0 code hg).2.2, rfl⟩⟩

theorem incFirstClick_map_code (code : String) :
    ∀ l : List ShortUrl,
      (incFirstClick code l).map ShortUrl.shortCode = l.map ShortUrl.shortCode := by
  intro l
  induction l with
  | nil => rfl
  | cons v rest ih =>
    by_cases hv : v.shortCode = code
    · simp [incFirstClick, if_pos hv]
    · simp [incFirstClick, if_neg hv, ih]

theorem handleRedirect_shape (now : Nat) (code : String) (s : AppState) :
    (∃ e, (handleRedirect now code s).logs = s.logs ++ [e]) ∧
    (handleRedirect now code s).shortUrls.map ShortUrl.shortCode =
      s.shortUrls.map ShortUrl.shortCode := by
  cases hf : s.shortUrls.find? (fun u => u.shortCode == code) with
  | none =>
    simp only [handleRedirect, hf]
    exact ⟨⟨_, rfl⟩, trivial⟩
  | some found =>
    by_cases hexp : found.expiresAt < now
    · simp only [handleRedirect, hf, if_pos hexp]
      exact ⟨⟨_, rfl⟩, trivial⟩
    · simp only [handleRedirect, hf, if_neg hexp]
      exact ⟨⟨_, rfl⟩, incFirstClick_map_code code s.shortUrls⟩

/-- Claim C6: in every state reachable by any sequence of operations, the
shortCode fields of the records in the collection are pairwise distinct: the
generator re-rolls on collision against the current set and redirects never
change any code, so uniqueness is preserved by every step. -/
theorem reachable_codes_nodup (s : AppState) (h : Reachable s) :
    (s.shortUrls.map ShortUrl.shortCode).Nodup := by
  induction h with
  | init => exact List.nodup_nil
  | next op hr hstep ih =>
    cases op with
    | setLong t =>
      simp only [step] at hstep
      cases hstep
      exact ih
    | setValidity t =>
      simp only [step] at hstep
      cases hstep
      exact ih
    | shorten parseURL now stream fuel =>
      simp only [step] at hstep
      rcases (handleShorten_shape parseURL now stream fuel _ _ hstep).2 with
        heq | ⟨r, heq, hnot, -⟩
      · rw [heq]; exact ih
      · rw [heq, List.map_cons]
        exact List.nodup_cons.mpr ⟨hnot, ih⟩
    | redirect now code =>
      simp only [step] at hstep
      cases hstep
      rw [(handleRedirect_shape now code _).2]
      exact ih
    | copy now code =>
      simp only [step] at hstep
      cases hstep
      exact ih

theorem reachable_codes_nodup_witness :
    (((⟨"", "", [⟨"aaaaaa", "https://example.com/", 0, 1800000, 0⟩],
        [⟨0, "Shortened new URL",
          [("shortCode", "aaaaaa"), ("originalUrl", "https://example.com/"),
           ("validityMinutes", "30")]⟩],
        none⟩ : AppState)).shortUrls.map ShortUrl.shortCode).Nodup :=
  reachable_codes_nodup _
    (@Reachable.next ⟨"https://example.com", "", [], [], none⟩
      ⟨"", "", [⟨"aaaaaa", "https://example.com/", 0, 1800000, 0⟩],
        [⟨0, "Shortened new URL",
          [("shortCode", "aaaaaa"), ("originalUrl", "https://example.com/"),
           ("validityMinutes", "30")]⟩],
        none⟩
      (Op.shorten urlParseModel 0 (fun _ => 0) 1)
      (@Reachable.next initState ⟨"https://example.com", "", [], [], none⟩
        (Op.setLong "https://example.com") Reachable.init (by decide))
      (by decide))

theorem getLogs_eq (logs : List LogEntry) : getLogs logs = logs := by
  induction logs with
  | nil => rfl
  | cons e rest ih =>
    show e :: getLogs rest = e :: rest
    rw [ih]

/-- Claim C7: every operation — successful or failed shorten, every redirect
outcome, copy — appends exactly one entry at the end of the log, so the log
lists entries in chronological operation order, and the snapshot accessor
returns the full list in insertion order (an element-wise copy, which under
the value semantics of the embedding cannot alias the internal list). -/
theorem log_discipline :
    (∀ parseURL now stream fuel (s s2 : AppState),
      handleShorten parseURL now stream fuel s = some s2 →
        ∃ e, s2.logs = s.logs ++ [e]) ∧
    (∀ now code s, ∃ e, (handleRedirect now code s).logs = s.logs ++ [e]) ∧
    (∀ now code s, ∃ e, (handleCopy now code s).logs = s.logs ++ [e]) ∧
    (∀ logs : List LogEntry, getLogs logs = logs) :=
  ⟨fun parseURL now stream fuel s s2 h =>
      (handleShorten_shape parseURL now stream fuel s s2 h).1,
   fun now code s => (handleRedirect_shape now code s).1,
   fun _ _ _ => ⟨_, rfl⟩,
   getLogs_eq⟩

theorem log_discipline_witness :
    ∃ e, ([⟨2, "Invalid URL entered", [("longUrl", "not a url")]⟩] : List LogEntry) =
      ([] : List LogEntry) ++ [e] :=
  log_discipline.1 urlParseModel 2 (fun _ => 0) 9 ⟨"not a url", "5", [], [], none⟩
    ⟨"not a url", "5", [], [⟨2, "Invalid URL entered", [("longUrl", "not a url")]⟩], none⟩
    (by decide)

/-- Index of a character in the generator alphabet, as a draw value. -/
def idxOfA (ch : Char) : Fin 62 :=
  ⟨alphaChars.indexOf ch % 62, Nat.mod_lt _ (by norm_num)⟩

theorem charOf_idxOfA (ch : Char) (h : ch ∈ alphaChars) : charOf (idxOfA ch) = ch := by
  have hlt : alphaChars.indexOf ch < alphaChars.length := List.indexOf_lt_length.mpr h
  have hmod : alphaChars.indexOf ch % 62 = alphaChars.indexOf ch :=
    Nat.mod_eq_of_lt (alphaChars_length ▸ hlt)
  have hval : charOf (idxOfA ch) = alphaChars.get ⟨alphaChars.indexOf ch, hlt⟩ := by
    unfold charOf idxOfA
    congr 1
    exact Fin.ext hmod
  rw [hval]
  exact List.indexOf_get hlt

/-- A random stream whose first six draws spell the given 6-character code. -/
def streamOf (c : String) : Nat → Fin 62 :=
  fun n => idxOfA (c.data.getD n 'a')

theorem codeAt_streamOf (c : String) (hlen : c.length = 6)
    (hmem : ∀ ch ∈ c.data, ch ∈ alphaChars) : codeAt (streamOf c) 0 = c := by
  have hd : c.data.length = 6 := hlen
  have hlist : (List.range 6).map (fun i => charOf (streamOf c (6 * 0 + i))) = c.data := by
    apply List.ext_getElem
    · simpa using hd.symm
    · intro i h1 h2
      simp only [List.getElem_map, List.getElem_range]
      have h60 : 6 * 0 + i = i := by omega
      rw [h60]
      show charOf (idxOfA (c.data.getD i 'a')) = c.data[i]
      rw [List.getD_eq_getElem c.data 'a' h2]
      exact charOf_idxOfA _ (hmem _ (List.getElem_mem h2))
  show String.mk ((List.range 6).map fun i => charOf (streamOf c (6 * 0 + i))) = c
  rw [hlist]

theorem genFrom_of_fresh (existing : List String) (stream : Nat → Fin 62) :
    ∀ j k, codeAt stream (k + j) ∉ existing →
      ∃ c, genFrom existing stream k (j + 1) = some c ∧ c ∉ existing := by
  intro j
  induction j with
  | zero =>
    intro k h
    rw [Nat.add_zero] at h
    exact ⟨codeAt stream k, by simp [genFrom, if_neg h], h⟩
  | succ n ih =>
    intro k h
    by_cases hk : codeAt stream k ∈ existing
    · have hsh : codeAt stream (k + 1 + n) ∉ existing := by
        have : k + 1 + n = k + (n + 1) := by omega
        rw [this]
        exact h
      obtain ⟨c, hc, hcf⟩ := ih (k + 1) hsh
      refine ⟨c, ?_, hcf⟩
      simp only [genFrom, if_pos hk]
      exact hc
    · exact ⟨codeAt stream k, by simp [genFrom, if_neg hk], hk⟩

/-- Claim C8: the short-code generator terminates for every input set of
existing codes that does not contain all six-character alphanumeric strings,
even though the resampling loop has no retry bound: some random stream makes
the do-while loop stop with a fresh code, and on every stream that eventually
proposes a candidate outside the set, the loop stops within finite fuel. -/
theorem generateShortCode_terminates (existing : List String)
    (hfresh : ∃ c : String, c.length = 6 ∧ (∀ ch ∈ c.data, ch ∈ alphaChars) ∧
      c ∉ existing) :
    (∃ stream fuel c, generateShortCode existing stream fuel = some c ∧ c ∉ existing) ∧
    (∀ stream : Nat → Fin 62, (∃ k, codeAt stream k ∉ existing) →
      ∃ fuel c, generateShortCode existing stream fuel = some c ∧ c ∉ existing) := by
  constructor
  · obtain ⟨c, hlen, hmem, hnot⟩ := hfresh
    have h0 : codeAt (streamOf c) (0 + 0) ∉ existing := by
      rw [Nat.add_zero, codeAt_streamOf c hlen hmem]
      exact hnot
    obtain ⟨d, hd, hdf⟩ := genFrom_of_fresh existing (streamOf c) 0 0 h0
    exact ⟨streamOf c, 1, d, hd, hdf⟩
  · rintro stream ⟨k, hk⟩
    have h0 : codeAt stream (0 + k) ∉ existing := by
      rw [Nat.zero_add]
      exact hk
    obtain ⟨c, hc, hcf⟩ := genFrom_of_fresh existing stream k 0 h0
    exact ⟨k + 1, c, hc, hcf⟩

theorem generateShortCode_terminates_witness :
    (∃ stream fuel c, generateShortCode ["aaaaaa"] stream fuel = some c ∧
      c ∉ (["aaaaaa"] : List String)) ∧
    (∀ stream : Nat → Fin 62, (∃ k, codeAt stream k ∉ (["aaaaaa"] : List String)) →
      ∃ fuel c, generateShortCode ["aaaaaa"] stream fuel = some c ∧
        c ∉ (["aaaaaa"] : List String)) :=
  generateShortCode_terminates ["aaaaaa"] ⟨"bbbbbb", by decide, by decide, by decide⟩

/-- The generator output is not determined by the existing-code set alone:
with the same (empty) set, two different states of the random source — as two
successive Math.random-driven invocations would see — give different codes. -/
theorem generateShortCode_not_determined_by_set :
    generateShortCode [] (fun _ => 0) 1 ≠ generateShortCode [] (fun _ => 1) 1 := by
  decide

theorem codeAt_congr (s1 s2 : Nat → Fin 62) (k : Nat)
    (h : ∀ i, i < 6 → s1 (6 * k + i) = s2 (6 * k + i)) :
    codeAt s1 k = codeAt s2 k := by
  unfold codeAt
  congr 1
  apply List.map_congr_left
  intro i hi
  exact congrArg charOf (h i (List.mem_range.mp hi))

theorem genFrom_congr (existing : List String) (s1 s2 : Nat → Fin 62) :
    ∀ fuel k, (∀ n, n < 6 * (k + fuel) → s1 n = s2 n) →
      genFrom existing s1 k fuel = genFrom existing s2 k fuel := by
  intro fuel
  induction fuel with
  | zero => intro k h; rfl
  | succ m ih =>
    intro k h
    have hck : codeAt s1 k = codeAt s2 k :=
      codeAt_congr s1 s2 k (fun i hi => h _ (by omega))
    simp only [genFrom, hck]
    by_cases hmem : codeAt s2 k ∈ existing
    · rw [if_pos hmem, if_pos hmem]
      exact ih (k + 1) (fun n hn => h n (by omega))
    · rw [if_neg hmem, if_neg hmem]

/-- Claim C9 (amended): the short-code generator is a pure function of its
input set and the random draws it consumes: two invocations with the same
existing-code set whose random sources agree on every draw the loop can
consume (six per attempt) return the same short code, and the generator
touches no other program state. Unamended, determinism in the set alone fails:
see generateShortCode_not_determined_by_set. -/
theorem generateShortCode_pure (existing : List String) (s1 s2 : Nat → Fin 62)
    (fuel : Nat) (h : ∀ n, n < 6 * fuel → s1 n = s2 n) :
    generateShortCode existing s1 fuel = generateShortCode existing s2 fuel :=
  genFrom_congr existing s1 s2 fuel 0 (fun n hn => h n (by omega))

theorem generateShortCode_pure_witness :
    generateShortCode [] (fun _ => 0) 1 =
      generateShortCode [] (fun n => if n < 6 then 0 else 1) 1 :=
  generateShortCode_pure [] (fun _ => 0) (fun n => if n < 6 then 0 else 1) 1
    (fun n hn => by
      show (0 : Fin 62) = if n < 6 then 0 else 1
      rw [if_pos (show n < 6 by omega)])

/-- Claim C10: the originalUrl stored in a record is the serialization of the
parsed URL (new URL(input).toString()), not the raw input text, and the
successful-redirect message displays that stored value — so it can differ from
what the user typed: shortening "https://example.com" stores
"https://example.com/". -/
theorem originalUrl_is_serialization :
    (∀ (parseURL : String → Option String) now stream fuel (s s2 : AppState),
      handleShorten parseURL now stream fuel s = some s2 →
      s2.shortUrls ≠ s.shortUrls →
      ∃ r : ShortUrl, s2.shortUrls = r :: s.shortUrls ∧
        parseURL s.longUrl = some r.originalUrl) ∧
    (∀ now code (s : AppState) (u : ShortUrl),
      s.shortUrls.find? (fun x => x.shortCode == code) = some u →
      ¬ u.expiresAt < now →
      (handleRedirect now code s).redirectResult =
        some ("Redirected to: " ++ u.originalUrl)) ∧
    (urlParseModel "https://example.com" = some "https://example.com/" ∧
      ("https://example.com/" : String) ≠ "https://example.com" ∧
      (handleShorten urlParseModel 0 (fun _ => 0) 1
          ⟨"https://example.com", "", [], [], none⟩).map
        (fun t => t.shortUrls.map ShortUrl.originalUrl) = some ["https://example.com/"]) := by
  refine ⟨fun parseURL now stream fuel s s2 h hne => ?_, fun now code s u hf hexp => ?_,
    by decide, by decide, by decide⟩
  · rcases (handleShorten_shape parseURL now stream fuel s s2 h).2 with heq | ⟨r, heq, -, hp⟩
    · exact absurd heq hne
    · exact ⟨r, heq, hp⟩
  · simp only [handleRedirect, hf, if_neg hexp]

theorem originalUrl_is_serialization_witness :
    (∃ r : ShortUrl,
      ([⟨"aaaaaa", "https://example.com/", 0, 1800000, 0⟩] : List ShortUrl) =
        r :: ([] : List ShortUrl) ∧
      urlParseModel "https://example.com" = some r.originalUrl) ∧
    (handleRedirect 5 "aaaaaa"
        ⟨"", "", [⟨"aaaaaa", "https://example.com/", 0, 1800000, 0⟩], [], none⟩).redirectResult =
      some ("Redirected to: " ++ "https://example.com/") :=
  ⟨originalUrl_is_serialization.1 urlParseModel 0 (fun _ => 0) 1
      ⟨"https://example.com", "", [], [], none⟩
      ⟨"", "", [⟨"aaaaaa", "https://example.com/", 0, 1800000, 0⟩],
        [⟨0, "Shortened new URL",
          [("shortCode", "aaaaaa"), ("originalUrl", "https://example.com/"),
           ("validityMinutes", "30")]⟩],
        none⟩
      (by decide) (by decide),
   originalUrl_is_serialization.2.1 5 "aaaaaa"
      ⟨"", "", [⟨"aaaaaa", "https://example.com/", 0, 1800000, 0⟩], [], none⟩
      ⟨"aaaaaa", "https://example.com/", 0, 1800000, 0⟩ (by decide) (by decide)⟩

end UrlShortener
